import Mathlib

/-!
Verification of the response-normalization engine of an AI proxy server.

JavaScript values are modelled by a heap-based shallow embedding: `JSVal`
holds scalars and references, `JSNode` holds arrays and (insertion-ordered)
objects, and a heap is a `List JSNode` indexed by reference id.  This keeps
reference identity observable, which the cycle guard of `extractText`
depends on.  JS numbers are modelled as `Int` (every numeric value the
engine manipulates in the verified paths is an integer).  Recursive source
functions are embedded with an explicit fuel argument; termination of the
source recursion is expressed as fuel-stabilization theorems.
-/

inductive JSVal where
  | vundefined : JSVal
  | vnull : JSVal
  | vbool : Bool → JSVal
  | vnum : Int → JSVal
  | vstr : String → JSVal
  | vref : Nat → JSVal
deriving DecidableEq, Repr

inductive JSNode where
  | arr : List JSVal → JSNode
  | obj : List (String × JSVal) → JSNode
deriving DecidableEq, Repr

/-- JS truthiness of a value. -/
def jsTruthy : JSVal → Bool
  | .vundefined => false
  | .vnull => false
  | .vbool b => b
  | .vnum n => n ≠ 0
  | .vstr s => s ≠ ""
  | .vref _ => true

/-- `typeof v === 'object' && v` in JS: a non-null object (or array) reference. -/
def isRef : JSVal → Bool
  | .vref _ => true
  | _ => false

def isNullish : JSVal → Bool
  | .vundefined => true
  | .vnull => true
  | _ => false

def isStr : JSVal → Bool
  | .vstr _ => true
  | _ => false

/-- JS `a || b`. -/
def jsOr (a b : JSVal) : JSVal := if jsTruthy a then a else b

/-- JS `a ?? b`. -/
def jsCoalesce (a b : JSVal) : JSVal := if isNullish a then b else a

/-- Property access `v[k]` for string key `k`, with optional-chaining
semantics: nullish receivers and primitives yield `undefined`. -/
def jsGetProp (heap : List JSNode) (v : JSVal) (k : String) : JSVal :=
  match v with
  | .vref i =>
    match heap.get? i with
    | some (.obj fields) => (fields.lookup k).getD .vundefined
    | _ => .vundefined
  | _ => .vundefined

/-- `Array.isArray v` and, when true, the element list. -/
def getArr (heap : List JSNode) (v : JSVal) : Option (List JSVal) :=
  match v with
  | .vref i =>
    match heap.get? i with
    | some (.arr elems) => some elems
    | _ => none
  | _ => none

/-- The fixed priority-key list scanned first by `extractText`. -/
def priorityKeys : List String :=
  ["text", "content", "output_text", "output", "result", "response",
   "completion", "answer", "value", "parts", "data", "message"]

/-- The child values of an object visited by `extractText`: values of present
priority keys in priority order, then values of the remaining keys in
insertion order. -/
def objValues (fields : List (String × JSVal)) : List JSVal :=
  (priorityKeys.filterMap fun k => fields.lookup k) ++
    (fields.filter fun p => p.1 ∉ priorityKeys).map Prod.snd

/-- Sequential traversal of a list of child values, threading the visited
set exactly as the JS `Set` is mutated in place. -/
def extGo (f : JSVal → Finset Nat → String × Finset Nat) :
    List JSVal → Finset Nat → List String × Finset Nat
  | [], vis => ([], vis)
  | v :: rest, vis =>
    let p := f v vis
    let q := extGo f rest p.2
    (p.1 :: q.1, q.2)

/-- `extractText(value, visited)` from `server.js`, with fuel bounding the
depth of reference descent.  Every descent through a reference inserts a
fresh id into the visited set, so `heap.length + 1` fuel is always enough
(`extractTextF_stable`). -/
def extractTextF (heap : List JSNode) : Nat → JSVal → Finset Nat → String × Finset Nat
  | 0, _, vis => ("", vis)
  | fuel + 1, v, vis =>
    match v with
    | .vnull => ("", vis)
    | .vundefined => ("", vis)
    | .vstr s => (s, vis)
    | .vnum n => (toString n, vis)
    | .vbool b => (if b then "true" else "false", vis)
    | .vref i =>
      if i ∈ vis then ("", vis)
      else
        let vis1 := insert i vis
        match heap.get? i with
        | none => ("", vis1)
        | some (.arr elems) =>
          let r := extGo (extractTextF heap fuel) elems vis1
          (String.intercalate "\n" (r.1.filter fun s => s ≠ ""), r.2)
        | some (.obj fields) =>
          let r := extGo (extractTextF heap fuel) (objValues fields) vis1
          (String.intercalate "\n" (r.1.filter fun s => s ≠ ""), r.2)

/-- `extractText(value)` with a fresh visited set and sufficient fuel. -/
def extractText (heap : List JSNode) (v : JSVal) : String :=
  (extractTextF heap (heap.length + 1) v ∅).1

/-- The number of heap ids not yet in the visited set: the quantity that
shrinks at every descent through a fresh reference. -/
def missing (heap : List JSNode) (vis : Finset Nat) : Nat :=
  ((Finset.range heap.length).filter fun i => i ∉ vis).card

/-- Field lookup on an object literal under construction (`undefined` when
the key is absent). -/
def fGet (fs : List (String × JSVal)) (k : String) : JSVal :=
  (fs.lookup k).getD .vundefined

/-- JS property assignment on an object literal: an existing key is updated
in place, a new key is appended. -/
def setField : List (String × JSVal) → String → JSVal → List (String × JSVal)
  | [], k, v => [(k, v)]
  | (k', v') :: rest, k, v =>
    if k' = k then (k, v) :: rest else (k', v') :: setField rest k v

/-- The fields produced by spreading a value into an object literal
(`{...v}`): an object's own fields, an array's or string's index-keyed
elements, nothing for other primitives. -/
def spreadFields (heap : List JSNode) (v : JSVal) : List (String × JSVal) :=
  match v with
  | .vref i =>
    match heap.get? i with
    | some (.obj fields) => fields
    | some (.arr elems) => elems.enum.map fun p => (toString p.1, p.2)
    | none => []
  | .vstr s => s.toList.enum.map fun p => (toString p.1, .vstr (String.singleton p.2))
  | _ => []

/-- Stringification used by JS `Array.prototype.toString` and string
concatenation; plain objects print as `[object Object]`, arrays join their
elements with commas (nullish elements print as empty).  Fuel bounds the
descent through nested arrays. -/
def jsValToStrF (heap : List JSNode) : Nat → JSVal → String
  | _, .vstr s => s
  | _, .vnum n => toString n
  | _, .vbool b => if b then "true" else "false"
  | _, .vnull => "null"
  | _, .vundefined => "undefined"
  | 0, .vref _ => ""
  | fuel + 1, .vref i =>
    match heap.get? i with
    | some (.obj _) => "[object Object]"
    | some (.arr elems) =>
      String.intercalate ","
        (elems.map fun e =>
          match e with
          | .vnull => ""
          | .vundefined => ""
          | x => jsValToStrF heap fuel x)
    | none => ""

/-- JS `a + b` restricted to the value shapes this program can feed it:
numbers (with booleans and null coercing to numbers) add, anything
involving a string or an object concatenates as strings.  `undefined`
never reaches an addition in the embedded code (every operand passes
through `|| 0` first), so the NaN-producing cases are mapped to
`undefined`. -/
def jsAdd (heap : List JSNode) (a b : JSVal) : JSVal :=
  let toPrim := fun (v : JSVal) =>
    match v with
    | .vref _ => JSVal.vstr (jsValToStrF heap (heap.length + 1) v)
    | x => x
  match toPrim a, toPrim b with
  | .vstr s, y => .vstr (s ++ jsValToStrF heap 1 y)
  | x, .vstr s => .vstr (jsValToStrF heap 1 x ++ s)
  | .vnum x, .vnum y => .vnum (x + y)
  | .vnum x, .vbool b => .vnum (x + if b then 1 else 0)
  | .vbool a, .vnum y => .vnum ((if a then 1 else 0) + y)
  | .vbool a, .vbool b => .vnum ((if a then 1 else 0) + (if b then 1 else 0))
  | .vnull, .vnum y => .vnum y
  | .vnum x, .vnull => .vnum x
  | .vnull, .vnull => .vnum 0
  | .vnull, .vbool b => .vnum (if b then 1 else 0)
  | .vbool a, .vnull => .vnum (if a then 1 else 0)
  | _, _ => .vundefined

/-- The canonical usage object produced by `normalizeUsage`; field values
stay JS values because the source performs no coercion. -/
structure NUsage where
  prompt_tokens : JSVal
  completion_tokens : JSVal
  total_tokens : JSVal
deriving DecidableEq, Repr

/-- A nullish-coalescing chain `u[k1] ?? u[k2] ?? ... ?? d`. -/
def coalesceKeys (heap : List JSNode) (u : JSVal) : List String → JSVal → JSVal
  | [], d => d
  | k :: rest, d => jsCoalesce (jsGetProp heap u k) (coalesceKeys heap u rest d)

def promptAliases : List String :=
  ["prompt_tokens", "promptTokens", "input_tokens", "inputTokens", "prompt"]

def completionAliases : List String :=
  ["completion_tokens", "completionTokens", "output_tokens", "outputTokens", "completion"]

def totalAliases : List String := ["total_tokens", "totalTokens"]

/-- `normalizeUsage(usage)` from `server.js`. -/
def normalizeUsage (heap : List JSNode) (usage : JSVal) : NUsage :=
  if jsTruthy usage && isRef usage then
    let promptTokens := coalesceKeys heap usage promptAliases (.vnum 0)
    let completionTokens := coalesceKeys heap usage completionAliases (.vnum 0)
    let totalTokens := coalesceKeys heap usage totalAliases
      (jsAdd heap (jsOr promptTokens (.vnum 0)) (jsOr completionTokens (.vnum 0)))
    { prompt_tokens := jsOr promptTokens (.vnum 0)
      completion_tokens := jsOr completionTokens (.vnum 0)
      total_tokens := jsOr totalTokens
        (jsAdd heap (jsOr promptTokens (.vnum 0)) (jsOr completionTokens (.vnum 0))) }
  else
    { prompt_tokens := .vnum 0, completion_tokens := .vnum 0, total_tokens := .vnum 0 }

/-- The ways the embedded code can raise: property access on a nullish
value or a missing method (TypeError), unbounded recursion (stack
overflow), and the explicitly thrown invalid-format Error. -/
inductive JsError where
  | typeError : JsError
  | stackOverflow : JsError
  | invalidFormat : JsError
deriving DecidableEq, Repr

/-- One element of the canonical `choices` array. -/
structure NChoice where
  index : Int
  message : List (String × JSVal)
  finish_reason : JSVal
  logprobs : Option JSVal := none
deriving DecidableEq, Repr

/-- The canonical chat-completion response.  `object` is always the literal
`"chat.completion"` (the source replaces anything else). -/
structure NResponse where
  id : JSVal
  object : String
  created : Int
  model : JSVal
  choices : List NChoice
  usage : NUsage
deriving DecidableEq, Repr

/-- The response returned for a falsy upstream value. -/
def defaultNResponse (nowMs : Int) (model : String) : NResponse :=
  { id := .vstr ("chatcmpl-" ++ toString nowMs)
    object := "chat.completion"
    created := Int.fdiv nowMs 1000
    model := .vstr model
    choices := [{ index := 0
                  message := [("role", .vstr "assistant"), ("content", .vstr "")]
                  finish_reason := .vstr "stop" }]
    usage := ⟨.vnum 0, .vnum 0, .vnum 0⟩ }

/-- `buildResponse(choices, usage, base)` from `server.js`. -/
def buildResponse (heap : List JSNode) (nowMs : Int) (model : String)
    (choices : List NChoice) (usage : JSVal) (base : JSVal) : NResponse :=
  { id := jsOr (jsGetProp heap base "id") (.vstr ("chatcmpl-" ++ toString nowMs))
    object := "chat.completion"
    created := (match jsGetProp heap base "created" with
                | .vnum n => n
                | _ => Int.fdiv nowMs 1000)
    model := jsOr (jsGetProp heap base "model") (.vstr model)
    choices := choices
    usage := normalizeUsage heap (jsOr usage (jsGetProp heap base "usage")) }

/-- `message.content = extractText(message.content)` when the content is
present but not a string. -/
def ncMsg1 (heap : List JSNode) (msg0 : List (String × JSVal)) : List (String × JSVal) :=
  if fGet msg0 "content" ≠ .vundefined ∧ ¬ isStr (fGet msg0 "content") then
    setField msg0 "content" (.vstr (extractText heap (fGet msg0 "content")))
  else msg0

/-- `message.content = extractText(choice)` when the content is absent. -/
def ncMsg2 (heap : List JSNode) (choice : JSVal) (msg1 : List (String × JSVal)) :
    List (String × JSVal) :=
  if fGet msg1 "content" = .vundefined then
    setField msg1 "content" (.vstr (extractText heap choice))
  else msg1

/-- `message.role = 'assistant'` when the role is falsy. -/
def ncMsg3 (msg2 : List (String × JSVal)) : List (String × JSVal) :=
  if ¬ jsTruthy (fGet msg2 "role") then setField msg2 "role" (.vstr "assistant") else msg2

/-- `message.tool_calls = choice.tool_calls` when the message carries none
and the choice does. -/
def ncMsg4 (heap : List JSNode) (choice : JSVal) (msg3 : List (String × JSVal)) :
    List (String × JSVal) :=
  if ¬ jsTruthy (fGet msg3 "tool_calls") ∧ jsTruthy (jsGetProp heap choice "tool_calls") then
    setField msg3 "tool_calls" (jsGetProp heap choice "tool_calls")
  else msg3

/-- The message of a choice carrying a truthy `message`: spread, content
coercion, role default, tool-call carry-over, in source order. -/
def ncMessage (heap : List JSNode) (choice : JSVal) : List (String × JSVal) :=
  ncMsg4 heap choice
    (ncMsg3 (ncMsg2 heap choice (ncMsg1 heap (spreadFields heap (jsGetProp heap choice "message")))))

/-- Normalization of one element of an upstream `choices` array. -/
def normalizeChoiceElem (heap : List JSNode) (idx : Nat) (choice : JSVal) : NChoice :=
  if isRef choice ∧ jsTruthy (jsGetProp heap choice "message") then
    { index := (match jsGetProp heap choice "index" with | .vnum n => n | _ => (idx : Int))
      message := ncMessage heap choice
      finish_reason := jsOr (jsGetProp heap choice "finish_reason")
        (jsOr (jsGetProp heap choice "finishReason") (.vstr "stop"))
      logprobs :=
        if jsGetProp heap choice "logprobs" ≠ .vundefined then
          some (jsGetProp heap choice "logprobs")
        else none }
  else
    { index := (match jsGetProp heap choice "index" with | .vnum n => n | _ => (idx : Int))
      message := [("role", .vstr "assistant"), ("content", .vstr (extractText heap choice))]
      finish_reason := jsOr (jsGetProp heap choice "finish_reason")
        (jsOr (jsGetProp heap choice "finishReason") (.vstr "stop"))
      logprobs := none }

def mapChoices (heap : List JSNode) : Nat → List JSVal → List NChoice
  | _, [] => []
  | i, c :: rest => normalizeChoiceElem heap i c :: mapChoices heap (i + 1) rest

/-- Normalization of one non-nullish element of a `candidates` array. -/
def normalizeCandidateOk (heap : List JSNode) (idx : Nat) (cand : JSVal) : NChoice :=
  { index := (match jsGetProp heap cand "index" with | .vnum n => n | _ => (idx : Int))
    message := [("role", .vstr "assistant"),
                ("content", .vstr (extractText heap (jsCoalesce (jsGetProp heap cand "content") cand)))]
    finish_reason := jsOr (jsGetProp heap cand "finishReason")
      (jsOr (jsGetProp heap cand "finish_reason") (.vstr "stop"))
    logprobs := none }

/-- The `candidates.map(...)` step; accessing `.content` on a nullish
candidate raises a TypeError, as in the source. -/
def mapCandidatesE (heap : List JSNode) : Nat → List JSVal → Except JsError (List NChoice)
  | _, [] => .ok []
  | i, c :: rest =>
    if isNullish c then .error .typeError
    else
      match mapCandidatesE heap (i + 1) rest with
      | .error e => .error e
      | .ok ncs => .ok (normalizeCandidateOk heap i c :: ncs)

/-- A fragment collected by the fallback branches before final choice
assembly. -/
structure CandChoice where
  role : JSVal
  content : String
  finish_reason : JSVal
deriving DecidableEq, Repr

/-- `String.prototype.toLowerCase`, character by character (agrees with the
JS behaviour on the ASCII role names compared here). -/
def jsToLower (s : String) : String := String.mk (s.data.map Char.toLower)

/-- `(msg.role || msg.type || '').toLowerCase()`: raises on a truthy
non-string role and on a nullish message. -/
def assistantRolePred (heap : List JSNode) (msg : JSVal) : Except JsError Bool :=
  if isNullish msg then .error .typeError
  else
    match jsOr (jsGetProp heap msg "role") (jsOr (jsGetProp heap msg "type") (.vstr "")) with
    | .vstr s =>
      .ok (jsToLower s = "assistant" ∨ jsToLower s = "model" ∨ jsToLower s = "ai" ∨
        jsToLower s = "bot")
    | _ => .error .typeError

def findAssistantE (heap : List JSNode) : List JSVal → Except JsError (Option JSVal)
  | [] => .ok none
  | m :: rest =>
    match assistantRolePred heap m with
    | .error e => .error e
    | .ok true => .ok (some m)
    | .ok false => findAssistantE heap rest

/-- The scan of a `messages` array for the most recent assistant-like
message. -/
def messagesFragment (heap : List JSNode) (rd : JSVal) : Except JsError (List CandChoice) :=
  match getArr heap (jsGetProp heap rd "messages") with
  | none => .ok []
  | some msgs =>
    match findAssistantE heap msgs.reverse with
    | .error e => .error e
    | .ok none => .ok []
    | .ok (some am) =>
      let content := extractText heap (jsCoalesce (jsGetProp heap am "content") am)
      if content ≠ "" then
        .ok [⟨jsOr (jsGetProp heap am "role") (.vstr "assistant"), content,
             jsOr (jsGetProp heap am "finish_reason")
               (jsOr (jsGetProp heap am "finishReason") (.vstr "stop"))⟩]
      else .ok []

def respFields : List String :=
  ["output_text", "output", "result", "text", "message", "content", "response",
   "completion", "answer"]

/-- Processing of one name of the fixed priority-field list on the root
object. -/
def fieldFragment (heap : List JSNode) (rd : JSVal) (field : String) : List CandChoice :=
  let value := jsGetProp heap rd field
  if value = .vundefined then []
  else if field = "message" ∧ isRef value then
    let role := jsOr (jsGetProp heap value "role") (.vstr "assistant")
    let content := extractText heap
      (jsCoalesce (jsGetProp heap value "content") (jsCoalesce (jsGetProp heap value "text") value))
    if content ≠ "" then
      [⟨role, content, jsOr (jsGetProp heap value "finish_reason")
          (jsOr (jsGetProp heap value "finishReason") (.vstr "stop"))⟩]
    else []
  else
    let content := extractText heap value
    if content ≠ "" then [⟨.vstr "assistant", content, .vstr "stop"⟩] else []

def fieldFragments (heap : List JSNode) (rd : JSVal) : List CandChoice :=
  (respFields.map (fieldFragment heap rd)).flatten

/-- Final assembly of collected fragments into canonical choices with
positional indices. -/
def candToChoices : Nat → List CandChoice → List NChoice
  | _, [] => []
  | i, c :: rest =>
    { index := (i : Int)
      message := [("role", jsOr c.role (.vstr "assistant")), ("content", .vstr c.content)]
      finish_reason := jsOr c.finish_reason (.vstr "stop")
      logprobs := none } :: candToChoices (i + 1) rest

/-- The fallback branches of `normalizeToOpenAIResponse` (messages scan,
priority-field scan, bare string, whole-value extraction, final empty
choice). -/
def normalizeTail (heap : List JSNode) (rd : JSVal) (model : String) (nowMs : Int) :
    Except JsError NResponse :=
  match messagesFragment heap rd with
  | .error e => .error e
  | .ok msgFrag =>
    let cands := msgFrag ++ fieldFragments heap rd
    let cands2 :=
      if cands.isEmpty then
        (match rd with
         | .vstr s => [(⟨.vstr "assistant", s, .vstr "stop"⟩ : CandChoice)]
         | _ =>
           let fb := extractText heap rd
           if fb ≠ "" then [(⟨.vstr "assistant", fb, .vstr "stop"⟩ : CandChoice)] else [])
      else cands
    let cands3 :=
      if cands2.isEmpty then [(⟨.vstr "assistant", "", .vstr "stop"⟩ : CandChoice)] else cands2
    .ok (buildResponse heap nowMs model (candToChoices 0 cands3) (jsGetProp heap rd "usage") rd)

/-- The id/usage patching of the `data`-envelope branch: the outer `id` is
copied only when the nested result's id is falsy (never, in fact), the
outer `usage`, when truthy, overwrites the nested result's. -/
def dataPatch (heap : List JSNode) (rd : JSVal) (nested : NResponse) : NResponse :=
  let nested1 :=
    if ¬ jsTruthy nested.id ∧ jsTruthy (jsGetProp heap rd "id") then
      { nested with id := jsGetProp heap rd "id" }
    else nested
  if jsTruthy (jsGetProp heap rd "usage") then
    { nested1 with usage := normalizeUsage heap (jsGetProp heap rd "usage") }
  else nested1

/-- The `candidates` branch: map (raising on nullish candidates), drop
empty-content choices, use the survivors only when at least one remains. -/
def candBranch (heap : List JSNode) (rd : JSVal) (model : String) (nowMs : Int)
    (cl : List JSVal) : Except JsError NResponse :=
  match mapCandidatesE heap 0 cl with
  | .error e => .error e
  | .ok mapped =>
    let surv := mapped.filter fun c => decide (fGet c.message "content" ≠ .vstr "")
    if surv.length > 0 then
      .ok (buildResponse heap nowMs model surv (jsGetProp heap rd "usage") rd)
    else normalizeTail heap rd model nowMs

/-- `normalizeToOpenAIResponse(responseData, model)` from `server.js`, with
fuel bounding the depth of the `data`-envelope recursion (running out of
fuel models the stack overflow a cyclic `data` chain causes). -/
def normalizeToOpenAIResponseF (heap : List JSNode) :
    Nat → JSVal → String → Int → Except JsError NResponse
  | 0, _, _, _ => .error .stackOverflow
  | fuel + 1, rd, model, nowMs =>
    if ¬ jsTruthy rd then .ok (defaultNResponse nowMs model)
    else
      match getArr heap (jsGetProp heap rd "choices") with
      | some l =>
        .ok (buildResponse heap nowMs model (mapChoices heap 0 l) (jsGetProp heap rd "usage") rd)
      | none =>
        if isRef (jsGetProp heap rd "data") then
          match normalizeToOpenAIResponseF heap fuel (jsGetProp heap rd "data") model nowMs with
          | .error e => .error e
          | .ok nested => .ok (dataPatch heap rd nested)
        else
          match getArr heap (jsGetProp heap rd "candidates") with
          | some cl => candBranch heap rd model nowMs cl
          | none => normalizeTail heap rd model nowMs

def normalizeToOpenAIResponse (heap : List JSNode) (rd : JSVal) (model : String)
    (nowMs : Int) : Except JsError NResponse :=
  normalizeToOpenAIResponseF heap (heap.length + 1) rd model nowMs

/-- Projections for stating evaluation facts about normalizer results. -/
def okChoices : Except JsError NResponse → Option (List NChoice)
  | .ok r => some r.choices
  | .error _ => none

def okObject : Except JsError NResponse → Option String
  | .ok r => some r.object
  | .error _ => none

def okUsage : Except JsError NResponse → Option NUsage
  | .ok r => some r.usage
  | .error _ => none

def okId : Except JsError NResponse → Option JSVal
  | .ok r => some r.id
  | .error _ => none

/-- A message of the canonical chat request as fed to the HuggingFace
request transformer (string role and content). -/
structure HFMessage where
  role : String
  content : String
deriving DecidableEq, Repr

/-- The optional generation parameters read by the HuggingFace request
transformer; JS numbers are modelled as rationals, `none` is an absent
field. -/
structure HFGenParams where
  max_tokens : Option ℚ := none
  temperature : Option ℚ := none
  top_p : Option ℚ := none
deriving DecidableEq, Repr

structure HFParameters where
  max_new_tokens : ℚ
  temperature : ℚ
  top_p : ℚ
  return_full_text : Bool
deriving DecidableEq, Repr

structure HFRequest where
  inputs : String
  parameters : HFParameters
deriving DecidableEq, Repr

/-- JS `x || d` on an optional numeric parameter: an absent value and the
falsy number `0` both fall back to the default. -/
def numOrDefault (x : Option ℚ) (d : ℚ) : ℚ :=
  match x with
  | none => d
  | some v => if v = 0 then d else v

/-- `transformHuggingFaceRequest(messages, params)` from `server.js`. -/
def transformHuggingFaceRequest (messages : List HFMessage) (params : HFGenParams) :
    HFRequest :=
  { inputs :=
      (messages.foldl (fun acc msg =>
        if msg.role = "system" then acc ++ "System: " ++ msg.content ++ "\n\n"
        else if msg.role = "user" then acc ++ "User: " ++ msg.content ++ "\n\n"
        else if msg.role = "assistant" then acc ++ "Assistant: " ++ msg.content ++ "\n\n"
        else acc) "") ++ "Assistant:"
    parameters :=
      { max_new_tokens := numOrDefault params.max_tokens 1024
        temperature := numOrDefault params.temperature (7 / 10)
        top_p := numOrDefault params.top_p (9 / 10)
        return_full_text := false } }

/-- `String.prototype.trim`: strip leading and trailing whitespace (agrees
with the JS whitespace set on the ASCII payloads handled here). -/
def jsTrim (s : String) : String :=
  String.mk (((s.data.dropWhile Char.isWhitespace).reverse.dropWhile Char.isWhitespace).reverse)

/-- The body of `transformHuggingFaceResponse` past the array check:
`hfResponse[0]?.generated_text || ''`, then `.trim()` — which raises on a
truthy non-string. -/
def hfResponseBody (heap : List JSNode) (first : JSVal) (model : String) (nowMs : Int) :
    Except JsError NResponse :=
  match jsOr (jsGetProp heap first "generated_text") (.vstr "") with
  | .vstr s =>
    .ok { id := .vstr ("chatcmpl-" ++ toString nowMs)
          object := "chat.completion"
          created := Int.fdiv nowMs 1000
          model := .vstr model
          choices := [{ index := 0
                        message := [("role", .vstr "assistant"), ("content", .vstr (jsTrim s))]
                        finish_reason := .vstr "stop" }]
          usage := ⟨.vnum 0, .vnum 0, .vnum 0⟩ }
  | _ => .error .typeError

/-- `transformHuggingFaceResponse(hfResponse, model)` from `server.js`:
raises on a non-array or empty upstream body, then builds one choice from
the first element's `generated_text`. -/
def transformHuggingFaceResponse (heap : List JSNode) (hfResponse : JSVal) (model : String)
    (nowMs : Int) : Except JsError NResponse :=
  match getArr heap hfResponse with
  | none => .error .invalidFormat
  | some [] => .error .invalidFormat
  | some (first :: _) => hfResponseBody heap first model nowMs

/-- The upstream body `{choices: [{message: {content: "hi"}}]}`. -/
def choicesExampleHeap : List JSNode :=
  [.obj [("choices", .vref 1)], .arr [.vref 2], .obj [("message", .vref 3)],
   .obj [("content", .vstr "hi")]]

/-- The upstream body
`{data: {choices: [{message: {content: "hi"}}], usage: {prompt_tokens: 1}},
id: "outer", usage: {prompt_tokens: 2}}`. -/
def dataEnvelopeHeap : List JSNode :=
  [.obj [("data", .vref 1), ("id", .vstr "outer"), ("usage", .vref 4)],
   .obj [("choices", .vref 2), ("usage", .vref 5)],
   .arr [.vref 3],
   .obj [("message", .vref 6)],
   .obj [("prompt_tokens", .vnum 2)],
   .obj [("prompt_tokens", .vnum 1)],
   .obj [("content", .vstr "hi")]]

def mapCandidatesOk (heap : List JSNode) : Nat → List JSVal → List NChoice
  | _, [] => []
  | i, c :: rest => normalizeCandidateOk heap i c :: mapCandidatesOk heap (i + 1) rest

/-- The upstream body `{candidates: [{content: "a"}, {content: ""}]}`. -/
def candExampleHeap : List JSNode :=
  [.obj [("candidates", .vref 1)], .arr [.vref 2, .vref 3],
   .obj [("content", .vstr "a")], .obj [("content", .vstr "")]]

/-- The upstream body `{choices: []}`: node 0 is the root object, node 1
the empty choices array. -/
def emptyChoicesHeap : List JSNode := [.obj [("choices", .vref 1)], .arr []]

/-- Following the spec's words ("reads ... from the first present alias
among ..."): the first alias key carrying a numeric value, on a usage
object whose alias fields are numbers or absent. -/
def specFirstAlias (fs : List (String × JSVal)) : List String → Option Int
  | [] => none
  | k :: rest =>
    match fs.lookup k with
    | some (.vnum n) => some n
    | _ => specFirstAlias fs rest

/-- Following the spec's words, amended by the counterexample: prompt and
completion counts come from the first alias present, defaulting to 0;
`total_tokens` comes from a total alias only when one is present *and
non-zero*, and is the sum `prompt + completion` otherwise. -/
def specUsageNums (fs : List (String × JSVal)) : Int × Int × Int :=
  let p := (specFirstAlias fs promptAliases).getD 0
  let c := (specFirstAlias fs completionAliases).getD 0
  let t :=
    match specFirstAlias fs totalAliases with
    | some n => if n = 0 then p + c else n
    | none => p + c
  (p, c, t)

/-- The usage object `{prompt_tokens: 5, total_tokens: 0}`. -/
def falsyTotalHeap : List JSNode :=
  [.obj [("prompt_tokens", .vnum 5), ("total_tokens", .vnum 0)]]

/-- The usage object `{input_tokens: 5, output_tokens: 7}`. -/
def usageExampleHeap : List JSNode :=
  [.obj [("input_tokens", .vnum 5), ("output_tokens", .vnum 7)]]

/-- The usage object `{prompt_tokens: -5}`. -/
def negUsageHeap : List JSNode := [.obj [("prompt_tokens", .vnum (-5))]]

/-- Following the spec's words: the capitalized role label of a prompt
segment. -/
def roleLabel : String → String
  | "system" => "System"
  | "user" => "User"
  | "assistant" => "Assistant"
  | r => r

/-- Following the spec's words: the prompt is the concatenation, in message
order, of one segment per message. -/
def hfPrompt : List HFMessage → String
  | [] => ""
  | m :: rest => roleLabel m.role ++ ": " ++ m.content ++ "\n\n" ++ hfPrompt rest

/-- The upstream body `[{generated_text: 1}]`. -/
def hfBadHeap : List JSNode := [.arr [.vref 1], .obj [("generated_text", .vnum 1)]]

/-- The upstream body `[{generated_text: " hi "}]`. -/
def hfGoodHeap : List JSNode := [.arr [.vref 1], .obj [("generated_text", .vstr " hi ")]]

/-- A self-referential object: `a = {text: "hi"}; a.self = a`. -/
def cyclicHeap : List JSNode := [.obj [("text", .vstr "hi"), ("self", .vref 0)]]

/-- An array holding the same object reference twice:
`b = {text: "hi"}; a = [b, b]`. -/
def sharedHeap : List JSNode := [.arr [.vref 1, .vref 1], .obj [("text", .vstr "hi")]]

theorem missing_mono (heap : List JSNode) {vis vis' : Finset Nat} (h : vis ⊆ vis') :
    missing heap vis' ≤ missing heap vis := by
  apply Finset.card_le_card
  intro x hx
  simp only [Finset.mem_filter] at hx ⊢
  exact ⟨hx.1, fun hv => hx.2 (h hv)⟩

theorem missing_insert_lt (heap : List JSNode) {vis : Finset Nat} {i : Nat}
    (hi : i < heap.length) (hvi : i ∉ vis) :
    missing heap (insert i vis) < missing heap vis := by
  have hsub : ((Finset.range heap.length).filter fun j => j ∉ insert i vis) ⊆
      ((Finset.range heap.length).filter fun j => j ∉ vis) := by
    intro x hx
    simp only [Finset.mem_filter, Finset.mem_insert] at hx ⊢
    exact ⟨hx.1, fun hv => hx.2 (Or.inr hv)⟩
  apply Finset.card_lt_card
  rw [Finset.ssubset_iff_of_subset hsub]
  refine ⟨i, ?_, ?_⟩
  · simp [Finset.mem_filter, Finset.mem_range, hi, hvi]
  · simp [Finset.mem_filter, Finset.mem_insert]

theorem extGo_mono {f : JSVal → Finset Nat → String × Finset Nat}
    (hf : ∀ v vis, vis ⊆ (f v vis).2) :
    ∀ (l : List JSVal) (vis : Finset Nat), vis ⊆ (extGo f l vis).2 := by
  intro l
  induction l with
  | nil => intro vis; simp [extGo]
  | cons v rest ih =>
    intro vis
    simp only [extGo]
    exact (hf v vis).trans (ih _)

theorem extractTextF_mono (heap : List JSNode) :
    ∀ (fuel : Nat) (v : JSVal) (vis : Finset Nat), vis ⊆ (extractTextF heap fuel v vis).2 := by
  intro fuel
  induction fuel with
  | zero => intro v vis; simp [extractTextF]
  | succ f ih =>
    intro v vis
    match v with
    | .vnull => simp [extractTextF]
    | .vundefined => simp [extractTextF]
    | .vstr s => simp [extractTextF]
    | .vnum n => simp [extractTextF]
    | .vbool b => simp [extractTextF]
    | .vref i =>
      simp only [extractTextF]
      by_cases h : i ∈ vis
      · simp [h]
      · simp only [h, if_false]
        have hsub : vis ⊆ insert i vis := Finset.subset_insert i vis
        match heap.get? i with
        | none => exact hsub
        | some (.arr elems) => exact hsub.trans (extGo_mono ih elems (insert i vis))
        | some (.obj fields) => exact hsub.trans (extGo_mono ih (objValues fields) (insert i vis))

/-- One-step unfolding of `extractTextF` at a reference, used to control
rewriting depth in the fuel-stability proofs. -/
theorem extractTextF_ref (heap : List JSNode) (fuel : Nat) (i : Nat) (vis : Finset Nat) :
    extractTextF heap (fuel + 1) (.vref i) vis =
      (if i ∈ vis then ("", vis)
       else
        match heap.get? i with
        | none => ("", insert i vis)
        | some (.arr elems) =>
          let r := extGo (extractTextF heap fuel) elems (insert i vis)
          (String.intercalate "\n" (r.1.filter fun s => s ≠ ""), r.2)
        | some (.obj fields) =>
          let r := extGo (extractTextF heap fuel) (objValues fields) (insert i vis)
          (String.intercalate "\n" (r.1.filter fun s => s ≠ ""), r.2)) := rfl

theorem extGo_stable (heap : List JSNode) {f₁ f₂ : JSVal → Finset Nat → String × Finset Nat}
    {n : Nat}
    (hmono : ∀ v vis, vis ⊆ (f₁ v vis).2)
    (h : ∀ v vis, missing heap vis < n → f₁ v vis = f₂ v vis) :
    ∀ (l : List JSVal) (vis : Finset Nat), missing heap vis < n →
      extGo f₁ l vis = extGo f₂ l vis := by
  intro l
  induction l with
  | nil => intro vis _; rfl
  | cons v rest ih =>
    intro vis hv
    have h1 : f₁ v vis = f₂ v vis := h v vis hv
    have h2 : missing heap (f₁ v vis).2 < n :=
      lt_of_le_of_lt (missing_mono heap (hmono v vis)) hv
    simp only [extGo, ← h1, ih _ h2]

theorem extractTextF_succ (heap : List JSNode) :
    ∀ (fuel : Nat) (v : JSVal) (vis : Finset Nat), missing heap vis < fuel →
      extractTextF heap (fuel + 1) v vis = extractTextF heap fuel v vis := by
  intro fuel
  induction fuel with
  | zero => intro v vis h; exact absurd h (Nat.not_lt_zero _)
  | succ f ih =>
    intro v vis hv
    match v with
    | .vnull => rfl
    | .vundefined => rfl
    | .vstr s => rfl
    | .vnum n => rfl
    | .vbool b => rfl
    | .vref i =>
      rw [extractTextF_ref, extractTextF_ref]
      by_cases h : i ∈ vis
      · simp [h]
      · simp only [h, if_false]
        match hg : heap.get? i with
        | none => rfl
        | some (.arr elems) =>
          have hil : i < heap.length := List.get?_eq_some.mp hg |>.1
          have hm : missing heap (insert i vis) < f :=
            lt_of_lt_of_le (missing_insert_lt heap hil h) (Nat.lt_succ_iff.mp hv)
          have hstab := extGo_stable heap (extractTextF_mono heap (f + 1))
            (fun v vis hvis => ih v vis hvis) elems (insert i vis) hm
          simp only [hstab]
        | some (.obj fields) =>
          have hil : i < heap.length := List.get?_eq_some.mp hg |>.1
          have hm : missing heap (insert i vis) < f :=
            lt_of_lt_of_le (missing_insert_lt heap hil h) (Nat.lt_succ_iff.mp hv)
          have hstab := extGo_stable heap (extractTextF_mono heap (f + 1))
            (fun v vis hvis => ih v vis hvis) (objValues fields) (insert i vis) hm
          simp only [hstab]

theorem extractTextF_stable (heap : List JSNode) :
    ∀ (n m : Nat) (v : JSVal) (vis : Finset Nat),
      missing heap vis < n → missing heap vis < m →
      extractTextF heap n v vis = extractTextF heap m v vis := by
  have key : ∀ (k n : Nat) (v : JSVal) (vis : Finset Nat), missing heap vis < n →
      extractTextF heap (n + k) v vis = extractTextF heap n v vis := by
    intro k
    induction k with
    | zero => intro n v vis _; rfl
    | succ k ih =>
      intro n v vis h
      have h1 : missing heap vis < n + k := by omega
      have e1 : extractTextF heap (n + (k + 1)) v vis = extractTextF heap (n + k) v vis :=
        extractTextF_succ heap (n + k) v vis h1
      exact e1.trans (ih n v vis h)
  intro n m v vis hn hm
  rcases Nat.le_total n m with h | h
  · obtain ⟨k, rfl⟩ := Nat.le.dest h
    exact (key k n v vis hn).symm
  · obtain ⟨k, rfl⟩ := Nat.le.dest h
    exact key k m v vis hm

theorem missing_le_length (heap : List JSNode) (vis : Finset Nat) :
    missing heap vis ≤ heap.length := by
  calc missing heap vis ≤ (Finset.range heap.length).card := Finset.card_filter_le _ _
    _ = heap.length := Finset.card_range _

/-- Fresh references get inserted into the visited set. -/
theorem extractTextF_self_mem (heap : List JSNode) {i : Nat} {vis : Finset Nat} (fuel : Nat)
    (h : i ∉ vis) :
    i ∈ (extractTextF heap (fuel + 1) (.vref i) vis).2 := by
  simp only [extractTextF, h, if_false]
  have hmem : i ∈ insert i vis := Finset.mem_insert_self i vis
  match heap.get? i with
  | none => exact hmem
  | some (.arr elems) => exact extGo_mono (extractTextF_mono heap fuel) elems (insert i vis) hmem
  | some (.obj fields) =>
    exact extGo_mono (extractTextF_mono heap fuel) (objValues fields) (insert i vis) hmem

/-- A reference already in the visited set returns the empty string at once,
leaving the visited set unchanged. -/
theorem extractTextF_visited (heap : List JSNode) {i : Nat} {vis : Finset Nat} (fuel : Nat)
    (h : i ∈ vis) :
    extractTextF heap (fuel + 1) (.vref i) vis = ("", vis) := by
  simp [extractTextF, h]

theorem fGet_setField_self (fs : List (String × JSVal)) (k : String) (v : JSVal) :
    fGet (setField fs k v) k = v := by
  induction fs with
  | nil => simp [setField, fGet, List.lookup]
  | cons p rest ih =>
    obtain ⟨k1, v1⟩ := p
    by_cases h : k1 = k
    · simp [setField, h, fGet, List.lookup]
    · have hb : (k == k1) = false := beq_eq_false_iff_ne.mpr (Ne.symm h)
      simpa [setField, if_neg h, fGet, List.lookup, hb] using ih

theorem fGet_setField_other (fs : List (String × JSVal)) {k k' : String} (v : JSVal)
    (h : k ≠ k') :
    fGet (setField fs k' v) k = fGet fs k := by
  have hb' : (k == k') = false := beq_eq_false_iff_ne.mpr h
  induction fs with
  | nil => simp [setField, fGet, List.lookup, hb']
  | cons p rest ih =>
    obtain ⟨k1, v1⟩ := p
    by_cases hp : k1 = k'
    · have hb : (k == k1) = false := by rw [hp]; exact hb'
      simp [setField, if_pos hp, fGet, List.lookup, hb, hb']
    · by_cases hk : k1 = k
      · have hb : (k == k1) = true := by rw [hk]; exact beq_self_eq_true k
        simp [setField, if_neg hp, fGet, List.lookup, hb]
      · have hb : (k == k1) = false := beq_eq_false_iff_ne.mpr (Ne.symm hk)
        simpa [setField, if_neg hp, fGet, List.lookup, hb] using ih

example :
    normalizeUsage [.obj []] (.vref 0) =
      { prompt_tokens := .vnum 0, completion_tokens := .vnum 0, total_tokens := .vnum 0 } := by
  decide

example :
    normalizeUsage [.obj [("input_tokens", .vnum 5), ("output_tokens", .vnum 7)]] (.vref 0) =
      { prompt_tokens := .vnum 5, completion_tokens := .vnum 7, total_tokens := .vnum 12 } := by
  decide

example : extractText [] (.vstr "hi") = "hi" := by decide

example :
    extractText [.obj [("text", .vstr "hi"), ("self", .vref 0)]] (.vref 0) = "hi" := by
  decide

example :
    extractText [.arr [.vref 1, .vref 1], .obj [("text", .vstr "hi")]] (.vref 0) = "hi" := by
  decide

theorem fGet_ncMsg1_ne (heap : List JSNode) (m : List (String × JSVal)) (k : String)
    (hk : k ≠ "content") : fGet (ncMsg1 heap m) k = fGet m k := by
  unfold ncMsg1
  split_ifs with h
  · exact fGet_setField_other m _ hk
  · rfl

theorem fGet_ncMsg2_ne (heap : List JSNode) (choice : JSVal) (m : List (String × JSVal))
    (k : String) (hk : k ≠ "content") : fGet (ncMsg2 heap choice m) k = fGet m k := by
  unfold ncMsg2
  split_ifs with h
  · exact fGet_setField_other m _ hk
  · rfl

theorem fGet_ncMsg3_ne (m : List (String × JSVal)) (k : String) (hk : k ≠ "role") :
    fGet (ncMsg3 m) k = fGet m k := by
  unfold ncMsg3
  split_ifs with h
  · rfl
  · exact fGet_setField_other m _ hk

theorem fGet_ncMsg4_ne (heap : List JSNode) (choice : JSVal) (m : List (String × JSVal))
    (k : String) (hk : k ≠ "tool_calls") : fGet (ncMsg4 heap choice m) k = fGet m k := by
  unfold ncMsg4
  split_ifs with h
  · exact fGet_setField_other m _ hk
  · rfl

/-- A string-valued `message.content` passes through unchanged. -/
theorem ncMessage_content_str (heap : List JSNode) (choice : JSVal) (s : String)
    (hs : fGet (spreadFields heap (jsGetProp heap choice "message")) "content" = .vstr s) :
    fGet (ncMessage heap choice) "content" = .vstr s := by
  unfold ncMessage
  have h1 : ncMsg1 heap (spreadFields heap (jsGetProp heap choice "message")) =
      spreadFields heap (jsGetProp heap choice "message") := by
    unfold ncMsg1
    have : ¬ (fGet (spreadFields heap (jsGetProp heap choice "message")) "content" ≠ .vundefined ∧
        ¬ isStr (fGet (spreadFields heap (jsGetProp heap choice "message")) "content")) := by
      rw [hs]
      simp [isStr]
    rw [if_neg this]
  rw [h1]
  have h2 : ncMsg2 heap choice (spreadFields heap (jsGetProp heap choice "message")) =
      spreadFields heap (jsGetProp heap choice "message") := by
    unfold ncMsg2
    have : ¬ fGet (spreadFields heap (jsGetProp heap choice "message")) "content" = .vundefined := by
      rw [hs]
      simp
    rw [if_neg this]
  rw [h2, fGet_ncMsg4_ne heap choice _ _ (by decide), fGet_ncMsg3_ne _ _ (by decide), hs]

/-- A present non-string `message.content` is replaced by its text
extraction. -/
theorem ncMessage_content_extract (heap : List JSNode) (choice : JSVal) (v : JSVal)
    (hv : fGet (spreadFields heap (jsGetProp heap choice "message")) "content" = v)
    (hne : v ≠ .vundefined) (hns : isStr v = false) :
    fGet (ncMessage heap choice) "content" = .vstr (extractText heap v) := by
  unfold ncMessage
  have h1 : ncMsg1 heap (spreadFields heap (jsGetProp heap choice "message")) =
      setField (spreadFields heap (jsGetProp heap choice "message")) "content"
        (.vstr (extractText heap v)) := by
    unfold ncMsg1
    rw [if_pos (by rw [hv]; exact ⟨hne, by simp [hns]⟩), hv]
  rw [h1]
  have h2 : ncMsg2 heap choice
      (setField (spreadFields heap (jsGetProp heap choice "message")) "content"
        (.vstr (extractText heap v))) =
      setField (spreadFields heap (jsGetProp heap choice "message")) "content"
        (.vstr (extractText heap v)) := by
    unfold ncMsg2
    rw [if_neg (by rw [fGet_setField_self]; simp)]
  rw [h2, fGet_ncMsg4_ne heap choice _ _ (by decide), fGet_ncMsg3_ne _ _ (by decide),
    fGet_setField_self]

/-- An absent `message.content` is replaced by the text extraction of the
whole choice element. -/
theorem ncMessage_content_absent (heap : List JSNode) (choice : JSVal)
    (hv : fGet (spreadFields heap (jsGetProp heap choice "message")) "content" = .vundefined) :
    fGet (ncMessage heap choice) "content" = .vstr (extractText heap choice) := by
  unfold ncMessage
  have h1 : ncMsg1 heap (spreadFields heap (jsGetProp heap choice "message")) =
      spreadFields heap (jsGetProp heap choice "message") := by
    unfold ncMsg1
    rw [if_neg (by rw [hv]; simp)]
  rw [h1]
  have h2 : ncMsg2 heap choice (spreadFields heap (jsGetProp heap choice "message")) =
      setField (spreadFields heap (jsGetProp heap choice "message")) "content"
        (.vstr (extractText heap choice)) := by
    unfold ncMsg2
    rw [if_pos hv]
  rw [h2, fGet_ncMsg4_ne heap choice _ _ (by decide), fGet_ncMsg3_ne _ _ (by decide),
    fGet_setField_self]

/-- A missing `message.role` defaults to `"assistant"`. -/
theorem ncMessage_role_missing (heap : List JSNode) (choice : JSVal)
    (hv : fGet (spreadFields heap (jsGetProp heap choice "message")) "role" = .vundefined) :
    fGet (ncMessage heap choice) "role" = .vstr "assistant" := by
  unfold ncMessage
  have hrole : fGet (ncMsg2 heap choice
      (ncMsg1 heap (spreadFields heap (jsGetProp heap choice "message")))) "role" = .vundefined := by
    rw [fGet_ncMsg2_ne heap choice _ _ (by decide), fGet_ncMsg1_ne heap _ _ (by decide), hv]
  have h3 : ncMsg3 (ncMsg2 heap choice
      (ncMsg1 heap (spreadFields heap (jsGetProp heap choice "message")))) =
      setField (ncMsg2 heap choice
        (ncMsg1 heap (spreadFields heap (jsGetProp heap choice "message")))) "role"
        (.vstr "assistant") := by
    unfold ncMsg3
    rw [if_pos (by rw [hrole]; simp [jsTruthy])]
  rw [h3, fGet_ncMsg4_ne heap choice _ _ (by decide), fGet_setField_self]

/-- A choice-level `tool_calls` is carried onto a message lacking one. -/
theorem ncMessage_toolcalls (heap : List JSNode) (choice : JSVal)
    (hm : jsTruthy (fGet (spreadFields heap (jsGetProp heap choice "message")) "tool_calls") =
      false)
    (hc : jsTruthy (jsGetProp heap choice "tool_calls") = true) :
    fGet (ncMessage heap choice) "tool_calls" = jsGetProp heap choice "tool_calls" := by
  unfold ncMessage
  have htc : fGet (ncMsg3 (ncMsg2 heap choice
      (ncMsg1 heap (spreadFields heap (jsGetProp heap choice "message"))))) "tool_calls" =
      fGet (spreadFields heap (jsGetProp heap choice "message")) "tool_calls" := by
    rw [fGet_ncMsg3_ne _ _ (by decide), fGet_ncMsg2_ne heap choice _ _ (by decide),
      fGet_ncMsg1_ne heap _ _ (by decide)]
  have h4 : ncMsg4 heap choice (ncMsg3 (ncMsg2 heap choice
      (ncMsg1 heap (spreadFields heap (jsGetProp heap choice "message"))))) =
      setField (ncMsg3 (ncMsg2 heap choice
        (ncMsg1 heap (spreadFields heap (jsGetProp heap choice "message"))))) "tool_calls"
        (jsGetProp heap choice "tool_calls") := by
    unfold ncMsg4
    rw [if_pos ⟨by rw [htc]; simp [hm], hc⟩]
  rw [h4, fGet_setField_self]

/-- Unfolding of `normalizeChoiceElem` on an object choice with a truthy
`message`. -/
theorem normalizeChoiceElem_message (heap : List JSNode) (idx : Nat) (choice : JSVal)
    (h1 : isRef choice = true) (h2 : jsTruthy (jsGetProp heap choice "message") = true) :
    normalizeChoiceElem heap idx choice =
      { index := (match jsGetProp heap choice "index" with | .vnum n => n | _ => (idx : Int))
        message := ncMessage heap choice
        finish_reason := jsOr (jsGetProp heap choice "finish_reason")
          (jsOr (jsGetProp heap choice "finishReason") (.vstr "stop"))
        logprobs :=
          if jsGetProp heap choice "logprobs" ≠ .vundefined then
            some (jsGetProp heap choice "logprobs")
          else none } := by
  unfold normalizeChoiceElem
  rw [if_pos ⟨h1, h2⟩]

/-- The first (`choices` array) branch of the normalizer. -/
theorem normalizeF_choices (heap : List JSNode) (fuel : Nat) (rd : JSVal) (m : String)
    (now : Int) (l : List JSVal)
    (hrd : jsTruthy rd = true)
    (hch : getArr heap (jsGetProp heap rd "choices") = some l) :
    normalizeToOpenAIResponseF heap (fuel + 1) rd m now =
      .ok (buildResponse heap now m (mapChoices heap 0 l) (jsGetProp heap rd "usage") rd) := by
  simp only [normalizeToOpenAIResponseF, hrd, hch, not_true, if_false]

/-- C3: when the upstream `choices` field is an array, the normalizer maps
it elementwise to the canonical choices and wraps them with
`buildResponse`; an element carrying a `message` object keeps a
string-valued content verbatim, coerces a present non-string content via
Text Extraction, extracts the whole element when the content is absent,
defaults a missing role to `"assistant"` and a missing finish reason to
`"stop"`, carries the choice-level `tool_calls` and `logprobs` through when
present, and uses the upstream numeric `index` (the element's position
otherwise). -/
theorem C3_choices_mapping (heap : List JSNode) (fuel : Nat) (rd : JSVal) (m : String)
    (now : Int) (l : List JSVal)
    (hrd : jsTruthy rd = true)
    (hch : getArr heap (jsGetProp heap rd "choices") = some l) :
    normalizeToOpenAIResponseF heap (fuel + 1) rd m now =
      .ok (buildResponse heap now m (mapChoices heap 0 l) (jsGetProp heap rd "usage") rd) ∧
    ∀ (idx : Nat) (choice : JSVal),
      isRef choice = true →
      jsTruthy (jsGetProp heap choice "message") = true →
      isRef (jsGetProp heap choice "message") = true →
      (∀ s : String,
        fGet (spreadFields heap (jsGetProp heap choice "message")) "content" = .vstr s →
        fGet (normalizeChoiceElem heap idx choice).message "content" = .vstr s) ∧
      (∀ v : JSVal,
        fGet (spreadFields heap (jsGetProp heap choice "message")) "content" = v →
        v ≠ .vundefined → isStr v = false →
        fGet (normalizeChoiceElem heap idx choice).message "content" =
          .vstr (extractText heap v)) ∧
      (fGet (spreadFields heap (jsGetProp heap choice "message")) "content" = .vundefined →
        fGet (normalizeChoiceElem heap idx choice).message "content" =
          .vstr (extractText heap choice)) ∧
      (fGet (spreadFields heap (jsGetProp heap choice "message")) "role" = .vundefined →
        fGet (normalizeChoiceElem heap idx choice).message "role" = .vstr "assistant") ∧
      (jsGetProp heap choice "finish_reason" = .vundefined →
        jsGetProp heap choice "finishReason" = .vundefined →
        (normalizeChoiceElem heap idx choice).finish_reason = .vstr "stop") ∧
      (jsTruthy (fGet (spreadFields heap (jsGetProp heap choice "message")) "tool_calls") =
          false →
        jsTruthy (jsGetProp heap choice "tool_calls") = true →
        fGet (normalizeChoiceElem heap idx choice).message "tool_calls" =
          jsGetProp heap choice "tool_calls") ∧
      (jsGetProp heap choice "logprobs" ≠ .vundefined →
        (normalizeChoiceElem heap idx choice).logprobs =
          some (jsGetProp heap choice "logprobs")) ∧
      (∀ n : Int, jsGetProp heap choice "index" = .vnum n →
        (normalizeChoiceElem heap idx choice).index = n) ∧
      ((∀ n : Int, jsGetProp heap choice "index" ≠ .vnum n) →
        (normalizeChoiceElem heap idx choice).index = (idx : Int)) := by
  refine ⟨normalizeF_choices heap fuel rd m now l hrd hch, ?_⟩
  intro idx choice hc hm hmr
  have he := normalizeChoiceElem_message heap idx choice hc hm
  refine ⟨?_, ?_, ?_, ?_, ?_, ?_, ?_, ?_, ?_⟩
  · intro s hs
    rw [he]
    exact ncMessage_content_str heap choice s hs
  · intro v hv hne hns
    rw [he]
    exact ncMessage_content_extract heap choice v hv hne hns
  · intro hv
    rw [he]
    exact ncMessage_content_absent heap choice hv
  · intro hv
    rw [he]
    exact ncMessage_role_missing heap choice hv
  · intro hf hF
    rw [he]
    simp [jsOr, hf, hF, jsTruthy]
  · intro hm' hc'
    rw [he]
    exact ncMessage_toolcalls heap choice hm' hc'
  · intro hl
    rw [he]
    simp [hl]
  · intro n hn
    rw [he]
    simp [hn]
  · intro hn
    rw [he]
    rcases hx : jsGetProp heap choice "index" with _ | _ | b | k | s | r
    · rfl
    · rfl
    · rfl
    · exact absurd hx (hn k)
    · rfl
    · rfl

/-- Witness for C3 at `{choices: [{message: {content: "hi"}}]}`: exactly
one choice, content `"hi"`, finish reason `"stop"`. -/
theorem C3_choices_mapping_witness :
    okChoices (normalizeToOpenAIResponse choicesExampleHeap (.vref 0) "m" 0) =
        some [{ index := 0
                message := [("content", .vstr "hi"), ("role", .vstr "assistant")]
                finish_reason := .vstr "stop"
                logprobs := none }] ∧
      fGet (normalizeChoiceElem choicesExampleHeap 0 (.vref 2)).message "content" =
        .vstr "hi" ∧
      (normalizeChoiceElem choicesExampleHeap 0 (.vref 2)).finish_reason = .vstr "stop" := by
  obtain ⟨h1, h2⟩ :=
    C3_choices_mapping choicesExampleHeap 4 (.vref 0) "m" 0 [.vref 2] (by decide) (by decide)
  obtain ⟨hcs, _, _, _, hfr, _, _, _, _⟩ := h2 0 (.vref 2) (by decide) (by decide) (by decide)
  exact ⟨by decide, hcs "hi" (by decide), hfr (by decide) (by decide)⟩

theorem jsTruthy_jsOr_right (a b : JSVal) (hb : jsTruthy b = true) :
    jsTruthy (jsOr a b) = true := by
  unfold jsOr
  split_ifs with h
  · exact h
  · exact hb

theorem chatcmpl_ne_empty (x : String) : ("chatcmpl-" ++ x) ≠ "" := by
  intro h
  have hlen := congrArg String.length h
  rw [String.length_append] at hlen
  have h9 : ("chatcmpl-" : String).length = 9 := rfl
  have h0 : ("" : String).length = 0 := rfl
  omega

/-- Every response assembled by `buildResponse` carries a truthy id: either
the upstream one (kept only when truthy) or a generated `chatcmpl-` id. -/
theorem buildResponse_id_truthy (heap : List JSNode) (now : Int) (m : String)
    (choices : List NChoice) (usage base : JSVal) :
    jsTruthy (buildResponse heap now m choices usage base).id = true := by
  have hne : ("chatcmpl-" ++ toString now) ≠ "" := chatcmpl_ne_empty _
  unfold buildResponse
  exact jsTruthy_jsOr_right _ _ (by simp [jsTruthy, hne])

theorem defaultNResponse_id_truthy (now : Int) (m : String) :
    jsTruthy (defaultNResponse now m).id = true := by
  have hne : ("chatcmpl-" ++ toString now) ≠ "" := chatcmpl_ne_empty _
  simp [defaultNResponse, jsTruthy, hne]

/-- The fallback branches only ever return `buildResponse` results (or
raise). -/
theorem normalizeTail_shape (heap : List JSNode) (rd : JSVal) (m : String) (now : Int) :
    (∃ e, normalizeTail heap rd m now = .error e) ∨
      (∃ choices, normalizeTail heap rd m now =
        .ok (buildResponse heap now m choices (jsGetProp heap rd "usage") rd)) := by
  unfold normalizeTail
  rcases messagesFragment heap rd with e | frag
  · exact Or.inl ⟨e, rfl⟩
  · exact Or.inr ⟨_, rfl⟩

theorem normalizeTail_ok_id (heap : List JSNode) (rd : JSVal) (m : String) (now : Int)
    (r : NResponse) (h : normalizeTail heap rd m now = .ok r) :
    jsTruthy r.id = true := by
  rcases normalizeTail_shape heap rd m now with ⟨e, he⟩ | ⟨cs, hc⟩
  · rw [he] at h
    exact Except.noConfusion h
  · rw [hc] at h
    rw [← Except.ok.inj h]
    exact buildResponse_id_truthy heap now m cs (jsGetProp heap rd "usage") rd

/-- Under a truthy nested id, `dataPatch` never replaces the id and
overwrites the usage exactly when the outer usage is truthy. -/
theorem dataPatch_eq (heap : List JSNode) (rd : JSVal) (nested : NResponse)
    (hid : jsTruthy nested.id = true) :
    dataPatch heap rd nested =
      (if jsTruthy (jsGetProp heap rd "usage") = true then
        { nested with usage := normalizeUsage heap (jsGetProp heap rd "usage") }
      else nested) := by
  simp [dataPatch, hid]

theorem candBranch_eq (heap : List JSNode) (rd : JSVal) (m : String) (now : Int)
    (cl : List JSVal) (mapped : List NChoice)
    (hmap : mapCandidatesE heap 0 cl = .ok mapped) :
    candBranch heap rd m now cl =
      (if (mapped.filter fun c => decide (fGet c.message "content" ≠ .vstr "")).length > 0 then
        .ok (buildResponse heap now m
          (mapped.filter fun c => decide (fGet c.message "content" ≠ .vstr ""))
          (jsGetProp heap rd "usage") rd)
      else normalizeTail heap rd m now) := by
  unfold candBranch
  rw [hmap]

theorem candBranch_ok_id (heap : List JSNode) (rd : JSVal) (m : String) (now : Int)
    (cl : List JSVal) (r : NResponse) (h : candBranch heap rd m now cl = .ok r) :
    jsTruthy r.id = true := by
  rcases hmap : mapCandidatesE heap 0 cl with e | mapped
  · unfold candBranch at h
    rw [hmap] at h
    exact Except.noConfusion h
  · rw [candBranch_eq heap rd m now cl mapped hmap] at h
    by_cases hs : (mapped.filter fun c => decide (fGet c.message "content" ≠ .vstr "")).length > 0
    · rw [if_pos hs] at h
      rw [← Except.ok.inj h]
      exact buildResponse_id_truthy heap now m _ (jsGetProp heap rd "usage") rd
    · rw [if_neg hs] at h
      exact normalizeTail_ok_id heap rd m now r h

/-- Every successfully normalized response carries a truthy id. -/
theorem normalizeF_ok_id (heap : List JSNode) :
    ∀ (fuel : Nat) (rd : JSVal) (m : String) (now : Int) (r : NResponse),
      normalizeToOpenAIResponseF heap fuel rd m now = .ok r → jsTruthy r.id = true := by
  intro fuel
  induction fuel with
  | zero =>
    intro rd m now r h
    exact Except.noConfusion h
  | succ f ih =>
    intro rd m now r h
    rw [normalizeToOpenAIResponseF] at h
    by_cases hrd : jsTruthy rd = true
    · rw [if_neg (by simp [hrd])] at h
      rcases hch : getArr heap (jsGetProp heap rd "choices") with _ | l
      · rw [hch] at h
        by_cases hdata : isRef (jsGetProp heap rd "data") = true
        · rw [if_pos hdata] at h
          rcases hrec : normalizeToOpenAIResponseF heap f (jsGetProp heap rd "data") m now
            with e | nested
          · rw [hrec] at h
            exact Except.noConfusion h
          · rw [hrec] at h
            have hid := ih (jsGetProp heap rd "data") m now nested hrec
            rw [← Except.ok.inj h, dataPatch_eq heap rd nested hid]
            split_ifs with hu
            · exact hid
            · exact hid
        · rw [if_neg hdata] at h
          rcases hcand : getArr heap (jsGetProp heap rd "candidates") with _ | cl
          · rw [hcand] at h
            exact normalizeTail_ok_id heap rd m now r h
          · rw [hcand] at h
            exact candBranch_ok_id heap rd m now cl r h
      · rw [hch] at h
        rw [← Except.ok.inj h]
        exact buildResponse_id_truthy heap now m _ (jsGetProp heap rd "usage") rd
    · rw [if_pos (by simp [hrd])] at h
      rw [← Except.ok.inj h]
      exact defaultNResponse_id_truthy now m

/-- The `data`-envelope branch of the normalizer. -/
theorem normalizeF_data (heap : List JSNode) (fuel : Nat) (rd : JSVal) (m : String) (now : Int)
    (hrd : jsTruthy rd = true)
    (hch : getArr heap (jsGetProp heap rd "choices") = none)
    (hdata : isRef (jsGetProp heap rd "data") = true) :
    normalizeToOpenAIResponseF heap (fuel + 1) rd m now =
      (match normalizeToOpenAIResponseF heap fuel (jsGetProp heap rd "data") m now with
       | .error e => .error e
       | .ok nested => .ok (dataPatch heap rd nested)) := by
  rw [normalizeToOpenAIResponseF]
  rw [if_neg (by simp [hrd]), hch, if_pos hdata]

/-- The `candidates` branch of the normalizer. -/
theorem normalizeF_candidates (heap : List JSNode) (fuel : Nat) (rd : JSVal) (m : String)
    (now : Int) (cl : List JSVal)
    (hrd : jsTruthy rd = true)
    (hch : getArr heap (jsGetProp heap rd "choices") = none)
    (hdata : isRef (jsGetProp heap rd "data") = false)
    (hcand : getArr heap (jsGetProp heap rd "candidates") = some cl) :
    normalizeToOpenAIResponseF heap (fuel + 1) rd m now = candBranch heap rd m now cl := by
  rw [normalizeToOpenAIResponseF]
  rw [if_neg (by simp [hrd]), hch, if_neg (by simp [hdata]), hcand]

/-- C4 (amended): for an upstream object with no `choices` array and an
object-valued `data` field, the normalizer recurses into `data` as if it
were the top-level response; the outer `usage`, when truthy, overwrites the
recursive result's usage even when the inner response supplied its own, and
the outer `id` is never patched on, because the recursive result always
carries a truthy (generated, if absent upstream) id. -/
theorem C4_data_envelope (heap : List JSNode) (fuel : Nat) (rd : JSVal) (m : String)
    (now : Int)
    (hrd : jsTruthy rd = true)
    (hch : getArr heap (jsGetProp heap rd "choices") = none)
    (hdata : isRef (jsGetProp heap rd "data") = true) :
    normalizeToOpenAIResponseF heap (fuel + 1) rd m now =
      (match normalizeToOpenAIResponseF heap fuel (jsGetProp heap rd "data") m now with
       | .error e => .error e
       | .ok nested =>
         .ok (if jsTruthy (jsGetProp heap rd "usage") = true then
               { nested with usage := normalizeUsage heap (jsGetProp heap rd "usage") }
             else nested)) := by
  rw [normalizeF_data heap fuel rd m now hrd hch hdata]
  rcases hrec : normalizeToOpenAIResponseF heap fuel (jsGetProp heap rd "data") m now
    with e | nested
  · rfl
  · have hid := normalizeF_ok_id heap fuel (jsGetProp heap rd "data") m now nested hrec
    show Except.ok (dataPatch heap rd nested) =
      Except.ok (if jsTruthy (jsGetProp heap rd "usage") = true then
        { nested with usage := normalizeUsage heap (jsGetProp heap rd "usage") }
      else nested)
    rw [dataPatch_eq heap rd nested hid]

/-- C4 counterexample: the inner `data` response supplies its own usage
(`{1, 0, 1}`), yet the outer envelope's usage overwrites it (`{2, 0, 2}`);
and although the outer envelope supplies `id: "outer"` while the inner
upstream object has no id, the result keeps the generated id — both against
the claim's "exactly when the outer envelope supplies them and the inner
result did not supply its own". -/
theorem C4_counterexample :
    okUsage (normalizeToOpenAIResponse dataEnvelopeHeap (.vref 0) "m" 0) =
        some ⟨.vnum 2, .vnum 0, .vnum 2⟩ ∧
      okUsage (normalizeToOpenAIResponse dataEnvelopeHeap (.vref 1) "m" 0) =
        some ⟨.vnum 1, .vnum 0, .vnum 1⟩ ∧
      (⟨.vnum 2, .vnum 0, .vnum 2⟩ : NUsage) ≠ ⟨.vnum 1, .vnum 0, .vnum 1⟩ ∧
      okId (normalizeToOpenAIResponse dataEnvelopeHeap (.vref 0) "m" 0) =
        some (.vstr ("chatcmpl-" ++ toString (0 : Int))) ∧
      (JSVal.vstr ("chatcmpl-" ++ toString (0 : Int))) ≠ .vstr "outer" :=
  ⟨by decide, by decide, by decide, by decide, by decide⟩

/-- Witness for C4 at the concrete data envelope. -/
theorem C4_data_envelope_witness :
    normalizeToOpenAIResponseF dataEnvelopeHeap 3 (.vref 0) "m" 0 =
      (match normalizeToOpenAIResponseF dataEnvelopeHeap 2
          (jsGetProp dataEnvelopeHeap (.vref 0) "data") "m" 0 with
       | .error e => .error e
       | .ok nested =>
         .ok (if jsTruthy (jsGetProp dataEnvelopeHeap (.vref 0) "usage") = true then
               { nested with
                  usage := normalizeUsage dataEnvelopeHeap
                    (jsGetProp dataEnvelopeHeap (.vref 0) "usage") }
             else nested)) :=
  C4_data_envelope dataEnvelopeHeap 2 (.vref 0) "m" 0 (by decide) (by decide) (by decide)

theorem mapCandidatesE_ok (heap : List JSNode) :
    ∀ (i : Nat) (l : List JSVal), (∀ c ∈ l, isNullish c = false) →
      mapCandidatesE heap i l = .ok (mapCandidatesOk heap i l) := by
  intro i l
  induction l generalizing i with
  | nil => intro _; rfl
  | cons c rest ih =>
    intro hnn
    have hc := hnn c (List.mem_cons_self _ _)
    have hrest := ih (i + 1) fun x hx => hnn x (List.mem_cons_of_mem _ hx)
    simp [mapCandidatesE, mapCandidatesOk, hc, hrest]

/-- C5: each (non-nullish) candidate becomes a choice whose content is the
Text Extraction of its `content` field — of the whole candidate when the
content is nullish; candidates extracting to empty text are dropped; the
surviving list is used only when at least one candidate survives, and
resolution falls through to the later branches otherwise. -/
theorem C5_candidates (heap : List JSNode) (fuel : Nat) (rd : JSVal) (m : String) (now : Int)
    (cl : List JSVal)
    (hrd : jsTruthy rd = true)
    (hch : getArr heap (jsGetProp heap rd "choices") = none)
    (hdata : isRef (jsGetProp heap rd "data") = false)
    (hcand : getArr heap (jsGetProp heap rd "candidates") = some cl)
    (hnn : ∀ c ∈ cl, isNullish c = false) :
    (∀ (idx : Nat) (c : JSVal), isNullish (jsGetProp heap c "content") = false →
      fGet (normalizeCandidateOk heap idx c).message "content" =
        .vstr (extractText heap (jsGetProp heap c "content"))) ∧
    (∀ (idx : Nat) (c : JSVal), isNullish (jsGetProp heap c "content") = true →
      fGet (normalizeCandidateOk heap idx c).message "content" =
        .vstr (extractText heap c)) ∧
    ((mapCandidatesOk heap 0 cl).filter
        (fun c => decide (fGet c.message "content" ≠ .vstr "")) ≠ [] →
      normalizeToOpenAIResponseF heap (fuel + 1) rd m now =
        .ok (buildResponse heap now m
          ((mapCandidatesOk heap 0 cl).filter
            (fun c => decide (fGet c.message "content" ≠ .vstr "")))
          (jsGetProp heap rd "usage") rd)) ∧
    ((mapCandidatesOk heap 0 cl).filter
        (fun c => decide (fGet c.message "content" ≠ .vstr "")) = [] →
      normalizeToOpenAIResponseF heap (fuel + 1) rd m now = normalizeTail heap rd m now) := by
  have hbranch : normalizeToOpenAIResponseF heap (fuel + 1) rd m now =
      (if ((mapCandidatesOk heap 0 cl).filter
          (fun c => decide (fGet c.message "content" ≠ .vstr ""))).length > 0 then
        .ok (buildResponse heap now m
          ((mapCandidatesOk heap 0 cl).filter
            (fun c => decide (fGet c.message "content" ≠ .vstr "")))
          (jsGetProp heap rd "usage") rd)
      else normalizeTail heap rd m now) := by
    rw [normalizeF_candidates heap fuel rd m now cl hrd hch hdata hcand,
      candBranch_eq heap rd m now cl (mapCandidatesOk heap 0 cl)
        (mapCandidatesE_ok heap 0 cl hnn)]
  refine ⟨?_, ?_, ?_, ?_⟩
  · intro idx c hc
    simp [normalizeCandidateOk, fGet, List.lookup, jsCoalesce, hc]
  · intro idx c hc
    rcases hv : jsGetProp heap c "content" with _ | _ | b | k | s | r <;>
      simp [hv, isNullish] at hc <;>
      simp [normalizeCandidateOk, fGet, List.lookup, jsCoalesce, isNullish, hv]
  · intro hne
    rw [hbranch, if_pos (List.length_pos.mpr hne)]
  · intro hemp
    rw [hbranch, if_neg (by rw [hemp]; simp)]

/-- Witness for C5 at `{candidates: [{content: "a"}, {content: ""}]}`:
exactly one surviving choice, content `"a"`. -/
theorem C5_candidates_witness :
    okChoices (normalizeToOpenAIResponse candExampleHeap (.vref 0) "m" 0) =
        some [{ index := 0
                message := [("role", .vstr "assistant"), ("content", .vstr "a")]
                finish_reason := .vstr "stop"
                logprobs := none }] ∧
      normalizeToOpenAIResponseF candExampleHeap 5 (.vref 0) "m" 0 =
        .ok (buildResponse candExampleHeap 0 "m"
          ((mapCandidatesOk candExampleHeap 0 [.vref 2, .vref 3]).filter
            (fun c => decide (fGet c.message "content" ≠ .vstr "")))
          (jsGetProp candExampleHeap (.vref 0) "usage") (.vref 0)) := by
  obtain ⟨h1, h2, h3, h4⟩ :=
    C5_candidates candExampleHeap 4 (.vref 0) "m" 0 [.vref 2, .vref 3]
      (by decide) (by decide) (by decide) (by decide) (by decide)
  exact ⟨by decide, h3 (by decide)⟩

/-- C1 (failing input): on the upstream body `{choices: []}` the normalizer
returns — without throwing — a response whose `object` field is
`"chat.completion"` but whose `choices` array is empty: the first branch
maps an empty upstream `choices` array straight through, contradicting the
never-zero-choices contract. -/
theorem C1_zero_choices :
    okObject (normalizeToOpenAIResponse emptyChoicesHeap (.vref 0) "m" 0) =
        some "chat.completion" ∧
      okChoices (normalizeToOpenAIResponse emptyChoicesHeap (.vref 0) "m" 0) = some [] := by
  exact ⟨rfl, rfl⟩

theorem jsOr_vnum_zero (n : Int) : jsOr (.vnum n) (.vnum 0) = .vnum n := by
  by_cases h : n = 0 <;> simp [jsOr, jsTruthy, h]

theorem jsAdd_vnum (heap : List JSNode) (a b : Int) :
    jsAdd heap (.vnum a) (.vnum b) = .vnum (a + b) := rfl

theorem coalesceKeys_num (heap : List JSNode) (i : Nat) (fs : List (String × JSVal))
    (hg : heap.get? i = some (.obj fs))
    (hnum : ∀ k v, fs.lookup k = some v → ∃ n, v = .vnum n) :
    ∀ (ks : List String) (d : JSVal),
      coalesceKeys heap (.vref i) ks d =
        (match specFirstAlias fs ks with
         | some n => .vnum n
         | none => d) := by
  intro ks
  induction ks with
  | nil => intro d; rfl
  | cons k rest ih =>
    intro d
    simp only [coalesceKeys, specFirstAlias]
    have hget : jsGetProp heap (.vref i) k = (fs.lookup k).getD .vundefined := by
      simp only [jsGetProp]
      rw [hg]
    rw [hget]
    match hl : fs.lookup k with
    | none => simp [jsCoalesce, isNullish, ih d]
    | some v =>
      obtain ⟨n, rfl⟩ := hnum k v hl
      simp [jsCoalesce, isNullish]

/-- On a usage object with numeric (or absent) alias fields,
`normalizeUsage` computes exactly the amended-spec values. -/
theorem normalizeUsage_numeric (heap : List JSNode) (i : Nat) (fs : List (String × JSVal))
    (hg : heap.get? i = some (.obj fs))
    (hnum : ∀ k v, fs.lookup k = some v → ∃ n, v = .vnum n) :
    normalizeUsage heap (.vref i) =
      { prompt_tokens := .vnum (specUsageNums fs).1
        completion_tokens := .vnum (specUsageNums fs).2.1
        total_tokens := .vnum (specUsageNums fs).2.2 } := by
  have hguard : (jsTruthy (JSVal.vref i) && isRef (JSVal.vref i)) = true := rfl
  simp only [normalizeUsage, hguard, if_true]
  rw [coalesceKeys_num heap i fs hg hnum promptAliases,
    coalesceKeys_num heap i fs hg hnum completionAliases,
    coalesceKeys_num heap i fs hg hnum totalAliases]
  simp only [specUsageNums]
  rcases hP : specFirstAlias fs promptAliases with _ | p <;>
    rcases hC : specFirstAlias fs completionAliases with _ | c <;>
    rcases hT : specFirstAlias fs totalAliases with _ | t <;>
    simp only [Option.getD, jsOr_vnum_zero, jsAdd_vnum]
  all_goals try simp [jsOr]
  all_goals by_cases ht : t = 0 <;> simp [jsOr, jsTruthy, ht, jsAdd_vnum]

theorem lookup_prop_of_forall {P : JSVal → Prop} {fs : List (String × JSVal)}
    (h : ∀ p ∈ fs, P p.2) :
    ∀ k v, fs.lookup k = some v → P v := by
  induction fs with
  | nil => intro k v hl; simp [List.lookup] at hl
  | cons p rest ih =>
    intro k v hl
    obtain ⟨k1, v1⟩ := p
    simp only [List.lookup] at hl
    cases hkb : k == k1 with
    | true =>
      rw [hkb] at hl
      have hv : v = v1 := by injection hl with h'; exact h'.symm
      exact hv ▸ h (k1, v1) (List.mem_cons_self _ _)
    | false =>
      rw [hkb] at hl
      exact ih (fun q hq => h q (List.mem_cons_of_mem _ hq)) k v hl

/-- Values selected by the spec-side alias resolution inherit any property
of the object's field values. -/
theorem specFirstAlias_prop {P : Int → Prop} {fs : List (String × JSVal)}
    (h : ∀ k v, fs.lookup k = some v → ∃ n, v = .vnum n ∧ P n) :
    ∀ (ks : List String) (n : Int), specFirstAlias fs ks = some n → P n := by
  intro ks
  induction ks with
  | nil => intro n h'; simp [specFirstAlias] at h'
  | cons k rest ih =>
    intro n h'
    simp only [specFirstAlias] at h'
    rcases hl : fs.lookup k with _ | v
    · rw [hl] at h'
      exact ih n h'
    · obtain ⟨m, hv, hP⟩ := h k v hl
      subst hv
      rw [hl] at h'
      have hmn : m = n := by injection h'
      exact hmn ▸ hP

/-- C6 counterexample: on `{prompt_tokens: 5, total_tokens: 0}` a total
alias is present (value 0), so the claim demands `total_tokens = 0`; the
code's final `totalTokens || sum` replaces the falsy supplied total with
the sum 5. -/
theorem C6_counterexample :
    normalizeUsage falsyTotalHeap (.vref 0) =
        { prompt_tokens := .vnum 5, completion_tokens := .vnum 0, total_tokens := .vnum 5 } ∧
      (JSVal.vnum 5) ≠ (JSVal.vnum 0) :=
  ⟨by decide, by decide⟩

/-- C6 (amended): on a usage object whose alias fields are numeric or
absent, the prompt count comes from the first present prompt alias and the
completion count from the first present completion alias (missing aliases
default to 0), and `total_tokens` is a total alias only when one is present
*and non-zero*; a missing — or zero-valued — total alias yields the sum
`prompt + completion`. -/
theorem C6_usage_aliases (heap : List JSNode) (i : Nat) (fs : List (String × JSVal))
    (hg : heap.get? i = some (.obj fs))
    (hnum : ∀ p ∈ fs, ∃ n : Int, p.2 = .vnum n) :
    (normalizeUsage heap (.vref i)).prompt_tokens =
        .vnum ((specFirstAlias fs promptAliases).getD 0) ∧
      (normalizeUsage heap (.vref i)).completion_tokens =
        .vnum ((specFirstAlias fs completionAliases).getD 0) ∧
      (∀ t : Int, specFirstAlias fs totalAliases = some t → t ≠ 0 →
        (normalizeUsage heap (.vref i)).total_tokens = .vnum t) ∧
      ((specFirstAlias fs totalAliases = none ∨ specFirstAlias fs totalAliases = some 0) →
        (normalizeUsage heap (.vref i)).total_tokens =
          .vnum ((specFirstAlias fs promptAliases).getD 0 +
            (specFirstAlias fs completionAliases).getD 0)) := by
  rw [normalizeUsage_numeric heap i fs hg (lookup_prop_of_forall hnum)]
  refine ⟨rfl, rfl, ?_, ?_⟩
  · intro t ht htne
    simp [specUsageNums, ht, htne]
  · rintro (ht | ht) <;> simp [specUsageNums, ht]

/-- Witness for C6 at `{input_tokens: 5, output_tokens: 7}` (and the
`normalizeUsage({})` example). -/
theorem C6_usage_aliases_witness :
    (normalizeUsage usageExampleHeap (.vref 0)).prompt_tokens = .vnum 5 ∧
      (normalizeUsage usageExampleHeap (.vref 0)).completion_tokens = .vnum 7 ∧
      (normalizeUsage usageExampleHeap (.vref 0)).total_tokens = .vnum 12 ∧
      normalizeUsage [.obj []] (.vref 0) =
        { prompt_tokens := .vnum 0, completion_tokens := .vnum 0, total_tokens := .vnum 0 } := by
  obtain ⟨h1, h2, h3, h4⟩ :=
    C6_usage_aliases usageExampleHeap 0
      [("input_tokens", .vnum 5), ("output_tokens", .vnum 7)] rfl
      (by intro p hp; fin_cases hp <;> exact ⟨_, rfl⟩)
  refine ⟨?_, ?_, ?_, by decide⟩
  · rw [h1]
    decide
  · rw [h2]
    decide
  · rw [h4 (Or.inl rfl)]
    decide

/-- C7 counterexample: on `{prompt_tokens: -5}` every claim-relevant field
of the result is the negative number −5 — the code performs no coercion to
non-negative integers. -/
theorem C7_counterexample :
    normalizeUsage negUsageHeap (.vref 0) =
        { prompt_tokens := .vnum (-5), completion_tokens := .vnum 0,
          total_tokens := .vnum (-5) } ∧
      (-5 : Int) < 0 :=
  ⟨by decide, by decide⟩

/-- C7 (amended): the code performs no coercion, so token values pass
through as-is; when every supplied alias value is a non-negative integer,
all three result fields are non-negative integers, and
`total_tokens ≥ max(prompt_tokens, completion_tokens)` holds unless a
non-zero explicit total alias was supplied, which is preserved as-is. -/
theorem C7_usage_nonneg (heap : List JSNode) (i : Nat) (fs : List (String × JSVal))
    (hg : heap.get? i = some (.obj fs))
    (hnum : ∀ p ∈ fs, ∃ n : Int, p.2 = .vnum n ∧ 0 ≤ n) :
    ∃ p c t : Int,
      normalizeUsage heap (.vref i) =
          { prompt_tokens := .vnum p, completion_tokens := .vnum c, total_tokens := .vnum t } ∧
        0 ≤ p ∧ 0 ≤ c ∧ 0 ≤ t ∧
        (∀ n : Int, specFirstAlias fs totalAliases = some n → n ≠ 0 → t = n) ∧
        ((¬ ∃ n : Int, specFirstAlias fs totalAliases = some n ∧ n ≠ 0) →
          t = p + c ∧ p ≤ t ∧ c ≤ t) := by
  have hnum' : ∀ k v, fs.lookup k = some v → ∃ n, v = .vnum n ∧ 0 ≤ n :=
    lookup_prop_of_forall hnum
  have hw : ∀ k v, fs.lookup k = some v → ∃ n, v = .vnum n :=
    fun k v hl => (hnum' k v hl).imp fun n hn => hn.1
  have hpos : ∀ (ks : List String) (n : Int), specFirstAlias fs ks = some n → 0 ≤ n :=
    specFirstAlias_prop hnum'
  have h := normalizeUsage_numeric heap i fs hg hw
  have hp : 0 ≤ (specFirstAlias fs promptAliases).getD 0 := by
    rcases hP : specFirstAlias fs promptAliases with _ | n
    · simp
    · simpa using hpos promptAliases n hP
  have hc : 0 ≤ (specFirstAlias fs completionAliases).getD 0 := by
    rcases hC : specFirstAlias fs completionAliases with _ | n
    · simp
    · simpa using hpos completionAliases n hC
  refine ⟨(specFirstAlias fs promptAliases).getD 0, (specFirstAlias fs completionAliases).getD 0,
    (specUsageNums fs).2.2, h, hp, hc, ?_, ?_, ?_⟩
  · rcases hT : specFirstAlias fs totalAliases with _ | n
    · have hteq : (specUsageNums fs).2.2 =
          (specFirstAlias fs promptAliases).getD 0 +
            (specFirstAlias fs completionAliases).getD 0 := by
        simp [specUsageNums, hT]
      rw [hteq]
      exact add_nonneg hp hc
    · by_cases hn : n = 0
      · have hteq : (specUsageNums fs).2.2 =
            (specFirstAlias fs promptAliases).getD 0 +
              (specFirstAlias fs completionAliases).getD 0 := by
          simp [specUsageNums, hT, hn]
        rw [hteq]
        exact add_nonneg hp hc
      · have hteq : (specUsageNums fs).2.2 = n := by simp [specUsageNums, hT, hn]
        rw [hteq]
        exact hpos totalAliases n hT
  · intro n hT hn
    simp [specUsageNums, hT, hn]
  · intro hno
    have hteq : (specUsageNums fs).2.2 =
        (specFirstAlias fs promptAliases).getD 0 +
          (specFirstAlias fs completionAliases).getD 0 := by
      rcases hT : specFirstAlias fs totalAliases with _ | n
      · simp [specUsageNums, hT]
      · have hn : n = 0 := by
          by_contra hne
          exact hno ⟨n, hT, hne⟩
        simp [specUsageNums, hT, hn]
    rw [hteq]
    exact ⟨rfl, le_add_of_nonneg_right hc, le_add_of_nonneg_left hp⟩

/-- Witness for C7 at `{input_tokens: 5, output_tokens: 7}`. -/
theorem C7_usage_nonneg_witness :
    ∃ p c t : Int,
      normalizeUsage usageExampleHeap (.vref 0) =
          { prompt_tokens := .vnum p, completion_tokens := .vnum c, total_tokens := .vnum t } ∧
        0 ≤ p ∧ 0 ≤ c ∧ 0 ≤ t :=
  match C7_usage_nonneg usageExampleHeap 0
      [("input_tokens", .vnum 5), ("output_tokens", .vnum 7)] rfl
      (by intro p hp; fin_cases hp <;> exact ⟨_, rfl, by decide⟩) with
  | ⟨p, c, t, h, hp, hc, ht, _⟩ => ⟨p, c, t, h, hp, hc, ht⟩

theorem hfFold_eq (messages : List HFMessage)
    (h : ∀ m ∈ messages, m.role = "system" ∨ m.role = "user" ∨ m.role = "assistant") :
    ∀ acc : String,
      messages.foldl (fun acc msg =>
        if msg.role = "system" then acc ++ "System: " ++ msg.content ++ "\n\n"
        else if msg.role = "user" then acc ++ "User: " ++ msg.content ++ "\n\n"
        else if msg.role = "assistant" then acc ++ "Assistant: " ++ msg.content ++ "\n\n"
        else acc) acc = acc ++ hfPrompt messages := by
  induction messages with
  | nil => intro acc; simp [hfPrompt]
  | cons m rest ih =>
    intro acc
    have ih' := ih fun q hq => h q (List.mem_cons_of_mem _ hq)
    rw [List.foldl_cons, ih']
    rcases h m (List.mem_cons_self _ _) with hr | hr | hr <;>
      simp [hfPrompt, hr, roleLabel, String.append_assoc]

/-- C8 counterexample: with `max_tokens: 0` supplied by the caller, the
claim demands `max_new_tokens = 0`; the code's `params.max_tokens || 1024`
treats the falsy 0 as absent and produces 1024. -/
theorem C8_counterexample :
    (transformHuggingFaceRequest [] { max_tokens := some 0 }).parameters.max_new_tokens =
        1024 ∧
      (1024 : ℚ) ≠ 0 :=
  ⟨by decide, by decide⟩

/-- C8 (amended): for messages with roles `system`/`user`/`assistant` the
prompt is one `"<Role>: <content>\n\n"` segment per message in order,
followed by the bare `"Assistant:"` cue; `max_new_tokens`, `temperature`
and `top_p` take the caller's value when it is present *and non-zero*, and
the defaults 1024, 0.7 and 0.9 when the value is absent *or the falsy 0*;
`return_full_text` is always false. -/
theorem C8_transform_request (messages : List HFMessage) (params : HFGenParams)
    (h : ∀ m ∈ messages, m.role = "system" ∨ m.role = "user" ∨ m.role = "assistant") :
    (transformHuggingFaceRequest messages params).inputs = hfPrompt messages ++ "Assistant:" ∧
      ((params.max_tokens = none ∨ params.max_tokens = some 0) →
        (transformHuggingFaceRequest messages params).parameters.max_new_tokens = 1024) ∧
      (∀ v : ℚ, params.max_tokens = some v → v ≠ 0 →
        (transformHuggingFaceRequest messages params).parameters.max_new_tokens = v) ∧
      ((params.temperature = none ∨ params.temperature = some 0) →
        (transformHuggingFaceRequest messages params).parameters.temperature = 7 / 10) ∧
      (∀ v : ℚ, params.temperature = some v → v ≠ 0 →
        (transformHuggingFaceRequest messages params).parameters.temperature = v) ∧
      ((params.top_p = none ∨ params.top_p = some 0) →
        (transformHuggingFaceRequest messages params).parameters.top_p = 9 / 10) ∧
      (∀ v : ℚ, params.top_p = some v → v ≠ 0 →
        (transformHuggingFaceRequest messages params).parameters.top_p = v) ∧
      (transformHuggingFaceRequest messages params).parameters.return_full_text = false := by
  refine ⟨?_, ?_, ?_, ?_, ?_, ?_, ?_, rfl⟩
  · simp only [transformHuggingFaceRequest]
    rw [hfFold_eq messages h ""]
    rw [String.empty_append]
  · rintro (hv | hv) <;> simp [transformHuggingFaceRequest, numOrDefault, hv]
  · intro v hv hne
    simp [transformHuggingFaceRequest, numOrDefault, hv, hne]
  · rintro (hv | hv) <;> simp [transformHuggingFaceRequest, numOrDefault, hv]
  · intro v hv hne
    simp [transformHuggingFaceRequest, numOrDefault, hv, hne]
  · rintro (hv | hv) <;> simp [transformHuggingFaceRequest, numOrDefault, hv]
  · intro v hv hne
    simp [transformHuggingFaceRequest, numOrDefault, hv, hne]

/-- Witness for C8 on a three-turn conversation with `temperature: 0.5`. -/
theorem C8_transform_request_witness :
    (transformHuggingFaceRequest
        [⟨"system", "s"⟩, ⟨"user", "u"⟩, ⟨"assistant", "a"⟩]
        { temperature := some (1 / 2) }).inputs =
        "System: s\n\nUser: u\n\nAssistant: a\n\nAssistant:" ∧
      (transformHuggingFaceRequest
        [⟨"system", "s"⟩, ⟨"user", "u"⟩, ⟨"assistant", "a"⟩]
        { temperature := some (1 / 2) }).parameters.max_new_tokens = 1024 ∧
      (transformHuggingFaceRequest
        [⟨"system", "s"⟩, ⟨"user", "u"⟩, ⟨"assistant", "a"⟩]
        { temperature := some (1 / 2) }).parameters.temperature = 1 / 2 ∧
      (transformHuggingFaceRequest
        [⟨"system", "s"⟩, ⟨"user", "u"⟩, ⟨"assistant", "a"⟩]
        { temperature := some (1 / 2) }).parameters.return_full_text = false := by
  obtain ⟨h1, h2, h3, h4, h5, h6, h7, h8⟩ :=
    C8_transform_request
      [⟨"system", "s"⟩, ⟨"user", "u"⟩, ⟨"assistant", "a"⟩]
      { temperature := some (1 / 2) }
      (by intro m hm; fin_cases hm <;> simp)
  refine ⟨?_, h2 (Or.inl rfl), h5 (1 / 2) rfl (by norm_num), h8⟩
  rw [h1]
  decide

/-- C9 counterexample: the upstream body `[{generated_text: 1}]` is a
non-empty array, yet the transformer raises — `.trim()` is called on the
truthy non-string `1` — contradicting the claim that every non-empty array
input returns without raising. -/
theorem C9_counterexample :
    transformHuggingFaceResponse hfBadHeap (.vref 0) "m" 0 = .error .typeError := rfl

/-- C9 (amended): the transformer raises the invalid-format error exactly
when the upstream body is not an array or is empty; on a non-empty array
whose first element's `generated_text` resolves (after `|| ''`) to a
string, it returns one choice carrying that string trimmed, with
`finish_reason` "stop" and an all-zero usage; when `generated_text` is a
truthy non-string it raises a TypeError instead. -/
theorem C9_transform_response (heap : List JSNode) (resp : JSVal) (m : String) (now : Int) :
    (getArr heap resp = none →
      transformHuggingFaceResponse heap resp m now = .error .invalidFormat) ∧
      (getArr heap resp = some [] →
        transformHuggingFaceResponse heap resp m now = .error .invalidFormat) ∧
      (∀ (first : JSVal) (rest : List JSVal) (s : String),
        getArr heap resp = some (first :: rest) →
        jsOr (jsGetProp heap first "generated_text") (.vstr "") = .vstr s →
        transformHuggingFaceResponse heap resp m now =
          .ok { id := .vstr ("chatcmpl-" ++ toString now)
                object := "chat.completion"
                created := Int.fdiv now 1000
                model := .vstr m
                choices := [{ index := 0
                              message := [("role", .vstr "assistant"),
                                          ("content", .vstr (jsTrim s))]
                              finish_reason := .vstr "stop" }]
                usage := ⟨.vnum 0, .vnum 0, .vnum 0⟩ }) ∧
      (∀ (first : JSVal) (rest : List JSVal),
        getArr heap resp = some (first :: rest) →
        (∀ s : String, jsOr (jsGetProp heap first "generated_text") (.vstr "") ≠ .vstr s) →
        transformHuggingFaceResponse heap resp m now = .error .typeError) := by
  refine ⟨?_, ?_, ?_, ?_⟩
  · intro hA
    simp only [transformHuggingFaceResponse]
    rw [hA]
  · intro hA
    simp only [transformHuggingFaceResponse]
    rw [hA]
  · intro first rest s hA hs
    have key : transformHuggingFaceResponse heap resp m now = hfResponseBody heap first m now := by
      simp only [transformHuggingFaceResponse]
      rw [hA]
    rw [key]
    simp only [hfResponseBody]
    rw [hs]
  · intro first rest hA hs
    have key : transformHuggingFaceResponse heap resp m now = hfResponseBody heap first m now := by
      simp only [transformHuggingFaceResponse]
      rw [hA]
    rw [key]
    simp only [hfResponseBody]

/-- Witness for C9: a good body yields the trimmed content, a non-array and
an empty array raise the invalid-format error. -/
theorem C9_transform_response_witness :
    transformHuggingFaceResponse hfGoodHeap (.vref 0) "m" 0 =
        .ok { id := .vstr ("chatcmpl-" ++ toString (0 : Int))
              object := "chat.completion"
              created := Int.fdiv 0 1000
              model := .vstr "m"
              choices := [{ index := 0
                            message := [("role", .vstr "assistant"),
                                        ("content", .vstr (jsTrim " hi "))]
                            finish_reason := .vstr "stop" }]
              usage := ⟨.vnum 0, .vnum 0, .vnum 0⟩ } ∧
      jsTrim " hi " = "hi" ∧
      transformHuggingFaceResponse [] (.vstr "x") "m" 0 = .error .invalidFormat ∧
      transformHuggingFaceResponse [.arr []] (.vref 0) "m" 0 = .error .invalidFormat := by
  refine ⟨?_, by decide, ?_, ?_⟩
  · exact (C9_transform_response hfGoodHeap (.vref 0) "m" 0).2.2.1 (.vref 1) [] " hi " rfl rfl
  · exact (C9_transform_response [] (.vstr "x") "m" 0).1 rfl
  · exact (C9_transform_response [.arr []] (.vref 0) "m" 0).2.1 rfl

/-- C2: for every value over every heap — self-referential object graphs
included — `extractText` terminates and returns a string: its fuel-indexed
computation no longer depends on the fuel once the fuel exceeds the number
of heap objects, and a reference already in the visited set yields the
empty string immediately, leaving the visited set unchanged. -/
theorem C2_extractText_total (heap : List JSNode) (v : JSVal) (vis : Finset Nat)
    (fuel₁ fuel₂ : Nat) (h₁ : heap.length < fuel₁) (h₂ : heap.length < fuel₂) :
    extractTextF heap fuel₁ v vis = extractTextF heap fuel₂ v vis ∧
      ∀ i ∈ vis, extractTextF heap fuel₁ (.vref i) vis = ("", vis) := by
  constructor
  · exact extractTextF_stable heap fuel₁ fuel₂ v vis
      (lt_of_le_of_lt (missing_le_length heap vis) h₁)
      (lt_of_le_of_lt (missing_le_length heap vis) h₂)
  · intro i hi
    obtain ⟨f, rfl⟩ : ∃ f, fuel₁ = f + 1 := ⟨fuel₁ - 1, by omega⟩
    exact extractTextF_visited heap f hi

/-- Witness for C2 at the self-referential object of `cyclicHeap`. -/
theorem C2_extractText_total_witness :
    cyclicHeap.length < 2 ∧ cyclicHeap.length < 5 ∧
      (extractTextF cyclicHeap 2 (.vref 0) {0} = extractTextF cyclicHeap 5 (.vref 0) {0} ∧
        ∀ i ∈ ({0} : Finset Nat), extractTextF cyclicHeap 2 (.vref i) {0} = ("", {0})) :=
  ⟨by decide, by decide,
    C2_extractText_total cyclicHeap (.vref 0) {0} 2 5 (by decide) (by decide)⟩

/-- C10: when one object reference occurs at two sibling positions of an
array, the whole traversal shares one visited set, so the first occurrence
contributes the extracted text and the second occurrence — the reference
now being in the visited set — contributes the empty string: the array's
text equals the first occurrence's text alone. -/
theorem C10_shared_reference (heap : List JSNode) (i j f : Nat)
    (hnode : heap.get? i = some (.arr [.vref j, .vref j]))
    (hij : j ≠ i) :
    (extractTextF heap (f + 2) (.vref i) ∅).1 = (extractTextF heap (f + 1) (.vref j) {i}).1 ∧
      extractTextF heap (f + 1) (.vref j) (extractTextF heap (f + 1) (.vref j) {i}).2 =
        ("", (extractTextF heap (f + 1) (.vref j) {i}).2) := by
  have hjvis : j ∉ ({i} : Finset Nat) := by simp [hij]
  have hjmem : j ∈ (extractTextF heap (f + 1) (.vref j) {i}).2 :=
    extractTextF_self_mem heap f hjvis
  have hsecond : extractTextF heap (f + 1) (.vref j) (extractTextF heap (f + 1) (.vref j) {i}).2 =
      ("", (extractTextF heap (f + 1) (.vref j) {i}).2) :=
    extractTextF_visited heap f hjmem
  refine ⟨?_, hsecond⟩
  rw [extractTextF_ref]
  simp only [Finset.not_mem_empty, if_false]
  rw [hnode]
  have hins : insert i (∅ : Finset Nat) = {i} := rfl
  simp only [hins, extGo, hsecond]
  set s := (extractTextF heap (f + 1) (.vref j) {i}).1 with hs
  by_cases h : s = ""
  · simp [h]
    rfl
  · simp [h]
    rfl

/-- Witness for C10 at `sharedHeap`. -/
theorem C10_shared_reference_witness :
    sharedHeap.get? 0 = some (.arr [.vref 1, .vref 1]) ∧ (1 : Nat) ≠ 0 ∧
      ((extractTextF sharedHeap 3 (.vref 0) ∅).1 =
          (extractTextF sharedHeap 2 (.vref 1) {0}).1 ∧
        extractTextF sharedHeap 2 (.vref 1) (extractTextF sharedHeap 2 (.vref 1) {0}).2 =
          ("", (extractTextF sharedHeap 2 (.vref 1) {0}).2)) ∧
      extractText sharedHeap (.vref 0) = "hi" ∧
      (extractTextF sharedHeap 2 (.vref 1) {0}).1 = "hi" :=
  ⟨by decide, by decide,
    C10_shared_reference sharedHeap 0 1 1 (by decide) (by decide),
    by decide, by decide⟩
